import Mathlib

/-!
Verification of the Soliton code generator's semantic core: the metadata
registry (pkg/metadata/metadata.go), the relation analyzer
(pkg/analyzer/relation_analyzer.go), the ID-field identification rules
(pkg/parser, annotation_parser.go / ast_parser.go), the framework BaseEntity
(pkg/framework/entity.go), and the entity-trait splice contract.

Strings are modelled by Lean String; Go-side string primitives
(strings.TrimPrefix, strings.Split, strings.HasSuffix, byte-wise string
comparison with <) are re-implemented over the underlying character list so
that they compute by kernel reduction. For the ASCII identifiers this code
manipulates (Go type and field names), character-wise and byte-wise
comparison coincide.
-/

/-! ## Go string primitives -/

/-- Byte-wise lexicographic comparison of Go strings (the Go < operator),
modelled character-wise; identical on ASCII data. -/
def charListLt : List Char → List Char → Bool
  | [], [] => false
  | [], _ :: _ => true
  | _ :: _, [] => false
  | a :: as, b :: bs => if a < b then true else if b < a then false else charListLt as bs

/-- Go string comparison s < t. -/
def strLt (s t : String) : Bool := charListLt s.data t.data

/-- Go strings.TrimPrefix: remove pre from the front of s when present. -/
def trimOnce (pre s : List Char) : List Char :=
  if pre.isPrefixOf s then s.drop pre.length else s

/-- Go strings.Split with a one-character separator. -/
def splitChar (sep : Char) : List Char → List (List Char)
  | [] => [[]]
  | c :: cs =>
    if c = sep then [] :: splitChar sep cs
    else
      match splitChar sep cs with
      | [] => [[c]]
      | h :: t => (c :: h) :: t

/-- Go strings.HasSuffix. -/
def hasSuffix (s suf : String) : Bool := suf.data.isSuffixOf s.data

/-! ## Metadata model (pkg/metadata/metadata.go)

Fields of the Go structs that carry no behavior relevant to the verified
operations (AST handles, file paths, package names) are omitted. -/

/-- FieldAnnotations (metadata.go). -/
structure FieldAnnotations where
  isUnique : Bool
  isRef : Bool
  isRequired : Bool
  isEntity : Bool
  isValueObject : Bool
  isIndex : Bool
  enumValues : List String
  strategy : String
deriving DecidableEq, Repr

/-- FieldMetadata (metadata.go). Type is the textual type name produced by
the AST parser, e.g. "int64", "OrderItem", "time.Time". -/
structure FieldMetadata where
  name : String
  type : String
  dbTag : String
  isPointer : Bool
  isSlice : Bool
  annotations : FieldAnnotations
deriving DecidableEq, Repr

/-- AggregateAnnotations (metadata.go). -/
structure AggregateAnnotations where
  isAggregate : Bool
  baseEntity : String
  isManyToMany : Bool
  refs : List String
deriving DecidableEq, Repr

/-- AggregateMetadata (metadata.go), restricted to the fields the analyzer
and registry operations consult. -/
structure AggregateMetadata where
  name : String
  fields : List FieldMetadata
  annotations : AggregateAnnotations
  idField : Option FieldMetadata
deriving DecidableEq, Repr

/-- RelationType (metadata.go): OneToOne, OneToMany, ManyToMany, Ref. -/
inductive RelationType where
  | oneToOne
  | oneToMany
  | manyToMany
  | ref
deriving DecidableEq, Repr

/-- RelationMetadata (metadata.go). identifyRelationType returning -1 (not a
relation) is modelled by Option at the call sites. -/
structure RelationMetadata where
  sourceAggregate : String
  targetAggregate : String
  type : RelationType
  field : Option FieldMetadata
  isOwner : Bool
deriving DecidableEq, Repr

/-- ManyToManyTableMetadata (metadata.go). -/
structure ManyToManyTableMetadata where
  tableName : String
  leftAggregate : String
  rightAggregate : String
  leftColumn : String
  rightColumn : String
  leftIDField : String
  rightIDField : String
  generationType : String
deriving DecidableEq, Repr

/-- EnumMetadata (metadata.go). -/
structure EnumMetadata where
  name : String
  fieldName : String
  aggregateName : String
  values : List String
  goType : String
deriving DecidableEq, Repr

/-! ## Registry (pkg/metadata/metadata.go)

The Go registry stores aggregates in a map keyed by name. A run of the
program observes the map through some enumeration of its entries; the
enumeration order is left unspecified by Go (and deliberately randomized
between runs). We model the registry contents as a list of aggregates —
one enumeration — with name-uniqueness as a hypothesis where it matters,
and model the order-indeterminacy of GetAll explicitly (getAllEnum). -/

/-- Registry.Get: map lookup by aggregate name. On a name-unique list this
is exactly the Go map semantics. -/
def registryGet (regs : List AggregateMetadata) (name : String) : Option AggregateMetadata :=
  regs.find? (fun a => a.name = name)

/-- Registry.Exists. -/
def registryExists (regs : List AggregateMetadata) (name : String) : Bool :=
  (registryGet regs name).isSome

/-- GetAll under an explicit map-enumeration order: Go range over the
aggregates map visits each entry exactly once, in an order the language
does not fix. iterOrder is the visiting order as index positions. -/
def getAllEnum (regs : List AggregateMetadata) (iterOrder : List Nat) : List AggregateMetadata :=
  iterOrder.filterMap (fun i => regs.get? i)

/-- Validity of a map-enumeration order: each stored entry visited exactly
once. Any permutation of the index range is a possible Go iteration. -/
def validIterOrder (regs : List AggregateMetadata) (iterOrder : List Nat) : Prop :=
  iterOrder.Perm (List.range regs.length)

/-- CollectEnums (metadata.go): scan every registered aggregate's fields and
emit one EnumMetadata per field with a non-empty enum-value annotation,
named aggregate name ++ field name. The scan order over aggregates is the
map-enumeration order of the given list. enumOfField is the loop body for
one field. -/
def enumOfField (aggName : String) (field : FieldMetadata) : Option EnumMetadata :=
  if field.annotations.enumValues.length > 0 then
    some { name := aggName ++ field.name
           fieldName := field.name
           aggregateName := aggName
           values := field.annotations.enumValues
           goType := field.type }
  else none

/-- Inner loop of CollectEnums for one aggregate. -/
def collectEnumsOfAgg (agg : AggregateMetadata) : List EnumMetadata :=
  agg.fields.filterMap (enumOfField agg.name)

/-- CollectEnums over one enumeration of the registered aggregates. -/
def collectEnums (regs : List AggregateMetadata) : List EnumMetadata :=
  regs.flatMap collectEnumsOfAgg

/-! ## Relation analyzer (pkg/analyzer/relation_analyzer.go) -/

/-- isBasicType: strip one leading *, accept time.Time and the fixed basic
type set. -/
def isBasicType (typeName : String) : Bool :=
  let t : List Char := trimOnce "*".data typeName.data
  if t = "time.Time".data then true
  else
    ["int", "int32", "int64", "uint", "uint32", "uint64",
     "float32", "float64", "string", "bool", "byte", "rune"].any
      (fun b => b.data = t)

/-- identifyRelationType: rule 1 ref annotation + basic type gives Ref;
rules 2/3 entity annotation gives OneToMany for slices, OneToOne otherwise;
-1 (no relation) is none. -/
def identifyRelationType (field : FieldMetadata) : Option RelationType :=
  if field.annotations.isRef && isBasicType field.type then
    some .ref
  else if field.annotations.isEntity then
    if field.isSlice then some .oneToMany else some .oneToOne
  else
    none

/-- extractTargetAggregate: strip [] then *, then the package qualifier. -/
def extractTargetAggregate (typeName : String) : String :=
  let t : List Char := trimOnce "*".data (trimOnce "[]".data typeName.data)
  let parts := splitChar '.' t
  if parts.length > 1 then ⟨parts.getLastD t⟩ else ⟨t⟩

/-- Loop body of analyzeAggregateRelations for one field: skip fields of
basic type, classify the rest, and build the RelationMetadata added to the
registry when the field classifies as a relation. -/
def fieldRelOf (aggName : String) (field : FieldMetadata) : Option RelationMetadata :=
  if isBasicType field.type then none
  else
    match identifyRelationType field with
    | some rt =>
        some { sourceAggregate := aggName
               targetAggregate := extractTargetAggregate field.type
               type := rt
               field := some field
               isOwner := false }
    | none => none

/-- analyzeAggregateRelations: walk the aggregate's fields and record one
RelationMetadata per field classified as a relation (returned as the list
of records added to the registry, in order). The Go function's error
return is always nil. -/
def analyzeAggregateRelations (agg : AggregateMetadata) : List RelationMetadata :=
  agg.fields.filterMap (fieldRelOf agg.name)

/-- Loop body of analyzeManyToManyRelations over the aggregate-level ref
list: a ref to an unregistered aggregate is an immediate error; a
bidirectional ref is recorded as a ManyToMany relation only by the
lexicographically smaller side. -/
def m2mGo (regs : List AggregateMetadata) (agg : AggregateMetadata) :
    List String → Except String (List RelationMetadata)
  | [] => .ok []
  | r :: rs =>
    match registryGet regs r with
    | none => .error ("引用的聚合根 " ++ r ++ " 不存在")
    | some targetAgg =>
      match m2mGo regs agg rs with
      | .error e => .error e
      | .ok rest =>
        if targetAgg.annotations.refs.contains agg.name && strLt agg.name r then
          .ok ({ sourceAggregate := agg.name
                 targetAggregate := r
                 type := .manyToMany
                 field := none
                 isOwner := true } :: rest)
        else .ok rest

/-- analyzeManyToManyRelations: aggregates flagged +soliton:manyToMany are
handled as ordinary aggregates (no junction synthesis for them). -/
def analyzeManyToManyRelations (regs : List AggregateMetadata) (agg : AggregateMetadata) :
    Except String (List RelationMetadata) :=
  if agg.annotations.isManyToMany then .ok []
  else m2mGo regs agg agg.annotations.refs

/-- AnalyzeRelations loop: for each aggregate (in registry-enumeration
order) run field analysis then aggregate-level many-to-many analysis; a
many-to-many error is wrapped and aborts the whole analysis. Returns the
relations accumulated in the registry, in insertion order. -/
def analyzeLoop (regs : List AggregateMetadata) :
    List AggregateMetadata → Except String (List RelationMetadata)
  | [] => .ok []
  | agg :: rest =>
    match analyzeManyToManyRelations regs agg with
    | .error e => .error ("分析聚合根 " ++ agg.name ++ " 的多对多关系失败: " ++ e)
    | .ok m2m =>
      match analyzeLoop regs rest with
      | .error e => .error e
      | .ok more => .ok (analyzeAggregateRelations agg ++ m2m ++ more)

/-- AnalyzeRelations over one enumeration of the registry. -/
def analyzeRelations (regs : List AggregateMetadata) : Except String (List RelationMetadata) :=
  analyzeLoop regs regs

/-- toSnakeCase: insert an underscore before every A-Z character not in
first position, then lowercase (ASCII). -/
def toSnakeCase (s : String) : String :=
  match s.data with
  | [] => ""
  | c :: cs =>
    ⟨(c :: cs.flatMap (fun d => if 'A' ≤ d ∧ d ≤ 'Z' then ['_', d] else [d])).map
      Char.toLower⟩

/-- createManyToManyTable: left/right are the lexicographically ordered
aggregate names; table and column names in snake case; the ID field names
are looked up from the source/target registry entries with "ID" as the
fallback. -/
def createManyToManyTable (regs : List AggregateMetadata) (relation : RelationMetadata) :
    ManyToManyTableMetadata :=
  let leftAgg := registryGet regs relation.sourceAggregate
  let rightAgg := registryGet regs relation.targetAggregate
  let leftName := if strLt relation.sourceAggregate relation.targetAggregate then
    relation.sourceAggregate else relation.targetAggregate
  let rightName := if strLt relation.sourceAggregate relation.targetAggregate then
    relation.targetAggregate else relation.sourceAggregate
  { tableName := toSnakeCase leftName ++ "_" ++ toSnakeCase rightName
    leftAggregate := leftName
    rightAggregate := rightName
    leftColumn := toSnakeCase leftName ++ "_id"
    rightColumn := toSnakeCase rightName ++ "_id"
    leftIDField :=
      match leftAgg with
      | some a => match a.idField with | some f => f.name | none => "ID"
      | none => "ID"
    rightIDField :=
      match rightAgg with
      | some a => match a.idField with | some f => f.name | none => "ID"
      | none => "ID"
    generationType := "relation_only" }

/-- GenerateManyToManyTables: one table per ManyToMany relation record. -/
def generateManyToManyTables (regs : List AggregateMetadata)
    (relations : List RelationMetadata) : List ManyToManyTableMetadata :=
  relations.filterMap (fun relation =>
    if relation.type = .manyToMany then some (createManyToManyTable regs relation)
    else none)

/-- ValidateRelations: the separate validation pass collects (never throws)
one error message per non-Ref relation whose target aggregate is not
registered. -/
def validateRelations (regs : List AggregateMetadata)
    (relations : List RelationMetadata) : List String :=
  relations.filterMap (fun relation =>
    if relation.type = .ref then none
    else if registryExists regs relation.targetAggregate then none
    else some ("聚合根 " ++ relation.sourceAggregate ++ " 的字段 " ++
      (match relation.field with | some f => f.name | none => "") ++
      " 引用了不存在的聚合根 " ++ relation.targetAggregate))

/-! ## ID-field identification (pkg/parser) -/

/-- IdentifyIDField (annotation_parser.go): the priority of a field as an
identity candidate — 1 db:"id" tag, 2 literal name ID, 3 name ending in ID
with length > 2 (Go byte length; equal to character count on ASCII names),
4 type int64; none when not a candidate. -/
def identifyIDFieldPriority (fieldName dbTag fieldType : String) : Option Nat :=
  if dbTag = "id" then some 1
  else if fieldName = "ID" then some 2
  else if hasSuffix fieldName "ID" && decide (fieldName.data.length > 2) then some 3
  else if fieldType = "int64" then some 4
  else none

/-- identifyIDField (ast_parser.go): collect the candidates in declaration
order, then keep the first candidate whose priority is strictly better
than the running best. -/
def identifyIDField (fields : List FieldMetadata) : Option FieldMetadata :=
  let candidates := fields.filterMap (fun f =>
    (identifyIDFieldPriority f.name f.dbTag f.type).map (fun p => (f, p)))
  match candidates with
  | [] => none
  | c :: cs =>
    some (cs.foldl (fun best cand => if cand.2 < best.2 then cand else best) c).1

/-! ## BaseEntity (pkg/framework/entity.go) -/

/-- BaseEntity: ID plus audit/version/soft-delete fields. time.Time values
are opaque here (modelled as Int instants). -/
structure BaseEntity where
  id : Int
  createdAt : Int
  updatedAt : Int
  version : Int
  deletedAt : Option Int
deriving DecidableEq, Repr

/-- Zero value of BaseEntity (Go zero-initialization). -/
def baseEntityZero : BaseEntity :=
  { id := 0, createdAt := 0, updatedAt := 0, version := 0, deletedAt := none }

/-- GetID. -/
def BaseEntity.getID (e : BaseEntity) : Int := e.id

/-- SetID. -/
def BaseEntity.setID (e : BaseEntity) (i : Int) : BaseEntity := { e with id := i }

/-- IsNew: ID equal to zero. -/
def BaseEntity.isNew (e : BaseEntity) : Bool := e.id == 0

/-- IsDeleted. -/
def BaseEntity.isDeleted (e : BaseEntity) : Bool := e.deletedAt.isSome

/-! ## Entity-trait splice (pkg/generator/entity_generator.go) -/

/-- Modelled from the spec: the entity-trait splice generator's file merge
(pkg/generator/entity_generator.go is not part of the provided sources;
only its contract is specified in §4.5 of the design spec). The target file
is a list of lines. Scan for the unique sentinel marker line: more than one
occurrence is a SpliceError; one occurrence discards everything from the
marker to end of file and re-appends marker plus freshly generated content;
no occurrence appends marker plus content at end of file. -/
def spliceGenerate (marker : String) (content : List String) (file : List String) :
    Except String (List String) :=
  if 2 ≤ file.count marker then .error "duplicate sentinel marker"
  else if file.count marker = 1 then
    .ok (file.takeWhile (fun l => l ≠ marker) ++ marker :: content)
  else .ok (file ++ marker :: content)



/-- Per-ref step of the error-free aggregate-level analysis: the relation
(if any) m2mGo records for one declared ref r of agg. -/
def m2mRelOfRef (regs : List AggregateMetadata) (agg : AggregateMetadata) (r : String) :
    Option RelationMetadata :=
  match registryGet regs r with
  | none => none
  | some targetAgg =>
    if targetAgg.annotations.refs.contains agg.name && strLt agg.name r then
      some { sourceAggregate := agg.name
             targetAggregate := r
             type := .manyToMany
             field := none
             isOwner := true }
    else none

/-- Relations contributed by analyzeManyToManyRelations for one aggregate on
the error-free path (every aggregate-level ref resolvable): the filterMap
form of m2mGo, used to state counting properties. -/
def m2mPure (regs : List AggregateMetadata) (agg : AggregateMetadata) : List RelationMetadata :=
  if agg.annotations.isManyToMany then []
  else agg.annotations.refs.filterMap (m2mRelOfRef regs agg)

/-- Relations produced by the whole error-free analysis, in registry
insertion order. -/
def analyzePure (regs : List AggregateMetadata) : List RelationMetadata :=
  regs.flatMap (fun agg => analyzeAggregateRelations agg ++ m2mPure regs agg)

/-- Whether a junction table is the one for the unordered aggregate-name
pair x, y. -/
def isPairTable (x y : String) (t : ManyToManyTableMetadata) : Bool :=
  decide ((t.leftAggregate = x ∧ t.rightAggregate = y) ∨
    (t.leftAggregate = y ∧ t.rightAggregate = x))

/-! ## Concrete input models used by witnesses and counterexamples -/

/-- Field annotations with nothing set. -/
def annNone : FieldAnnotations := ⟨false, false, false, false, false, false, [], ""⟩

/-- Field annotations carrying only +soliton:ref. -/
def annRef : FieldAnnotations := ⟨false, true, false, false, false, false, [], ""⟩

/-- Field annotations carrying only +soliton:entity. -/
def annEnt : FieldAnnotations := ⟨false, false, false, true, false, false, [], ""⟩

/-- Aggregate-level annotations of an aggregate root. -/
def aggAnn (m2m : Bool) (refs : List String) : AggregateAnnotations := ⟨true, "", m2m, refs⟩

/-- Role aggregate declaring an aggregate-level ref to User. -/
def roleAgg : AggregateMetadata := ⟨"Role", [], aggAnn false ["User"], none⟩

/-- User aggregate declaring an aggregate-level ref to Role. -/
def userAgg : AggregateMetadata := ⟨"User", [], aggAnn false ["Role"], none⟩

/-- Basic-typed field WarehouseID int64 annotated +soliton:ref. -/
def warehouseRefField : FieldMetadata := ⟨"WarehouseID", "int64", "warehouse_id", false, false, annRef⟩

/-- Order aggregate whose only field is an annotated outward ref. -/
def orderRefAgg : AggregateMetadata := ⟨"Order", [warehouseRefField], aggAnn false [], none⟩

/-- Order aggregate with an aggregate-level ref to the unregistered Ghost. -/
def orderGhostAgg : AggregateMetadata := ⟨"Order", [], aggAnn false ["Ghost"], none⟩

/-- Repeated basic-typed field Tags []string annotated +soliton:entity. -/
def tagsEntField : FieldMetadata := ⟨"Tags", "string", "tags", false, true, annEnt⟩

/-- Order aggregate whose only field is the repeated entity-annotated Tags. -/
def orderTagsAgg : AggregateMetadata := ⟨"Order", [tagsEntField], aggAnn false [], none⟩

/-- Singular object-typed field Profile *UserProfile annotated +soliton:entity. -/
def profileEntField : FieldMetadata := ⟨"Profile", "UserProfile", "-", true, false, annEnt⟩

/-- OrderID int field, no identity tag. -/
def orderIDIntField : FieldMetadata := ⟨"OrderID", "int", "", false, false, annNone⟩

/-- Name string field: not an identity candidate under any rule. -/
def nameStrField : FieldMetadata := ⟨"Name", "string", "", false, false, annNone⟩

/-- Unflagged aggregate Apple mutually referencing the flagged Busi. -/
def appleAgg : AggregateMetadata := ⟨"Apple", [], aggAnn false ["Busi"], none⟩

/-- Aggregate Busi flagged +soliton:manyToMany (business aggregate for the
association), mutually referencing Apple. -/
def busiAgg : AggregateMetadata := ⟨"Busi", [], aggAnn true ["Apple"], none⟩

/-- Status field with enum values. -/
def statusEnumField (vals : List String) : FieldMetadata :=
  ⟨"Status", "string", "status", false, false, ⟨false, false, false, false, false, false, vals, ""⟩⟩

/-- Aggregate Alpha with one enum field. -/
def alphaAgg : AggregateMetadata := ⟨"Alpha", [statusEnumField ["A1", "A2"]], aggAnn false [], none⟩

/-- Aggregate Beta with one enum field. -/
def betaAgg : AggregateMetadata := ⟨"Beta", [statusEnumField ["B1"]], aggAnn false [], none⟩

/-- Repeated object-typed field Items []*OrderItem annotated +soliton:entity. -/
def itemsEntField : FieldMetadata := ⟨"Items", "OrderItem", "-", true, true, annEnt⟩

/-- Order aggregate owning the one-to-many Items entity field. -/
def orderItemsAgg : AggregateMetadata := ⟨"Order", [itemsEntField], aggAnn false [], none⟩

/-! ## Basic facts about the Go string primitives -/

theorem charListLt_irrefl (l : List Char) : charListLt l l = false := by
  induction l with
  | nil => rfl
  | cons a as ih => simp [charListLt, ih]

theorem charListLt_asymm : ∀ {l m : List Char}, charListLt l m = true → charListLt m l = false
  | [], [], h => by simp [charListLt] at h
  | [], _ :: _, _ => rfl
  | _ :: _, [], h => by simp [charListLt] at h
  | a :: as, b :: bs, h => by
    simp only [charListLt] at h ⊢
    rcases lt_trichotomy a b with hab | hab | hab
    · simp [hab, not_lt_of_lt hab]
    · subst hab
      simp only [lt_irrefl, if_false] at h ⊢
      exact charListLt_asymm h
    · simp [hab, not_lt_of_lt hab] at h

theorem strLt_irrefl (s : String) : strLt s s = false := charListLt_irrefl s.data

theorem strLt_asymm {s t : String} (h : strLt s t = true) : strLt t s = false :=
  charListLt_asymm h

theorem strLt_ne {s t : String} (h : strLt s t = true) : s ≠ t := by
  intro he
  subst he
  rw [strLt_irrefl] at h
  exact Bool.false_ne_true h

/-! ## Registry lookup facts -/

theorem registryGet_of_mem {regs : List AggregateMetadata} {A : AggregateMetadata}
    (hnd : (regs.map (fun a => a.name)).Nodup) (hA : A ∈ regs) :
    registryGet regs A.name = some A := by
  induction regs with
  | nil => cases hA
  | cons x xs ih =>
    simp only [List.map_cons, List.nodup_cons] at hnd
    rcases List.mem_cons.mp hA with rfl | hmem
    · simp [registryGet, List.find?]
    · have hx : x.name ≠ A.name := by
        intro he
        exact hnd.1 (he ▸ List.mem_map.mpr ⟨A, hmem, rfl⟩)
      simpa [registryGet, List.find?, hx] using ih hnd.2 hmem

theorem mem_name_inj {regs : List AggregateMetadata} {a b : AggregateMetadata}
    (hnd : (regs.map (fun x => x.name)).Nodup) (ha : a ∈ regs) (hb : b ∈ regs)
    (h : a.name = b.name) : a = b := by
  have h1 := registryGet_of_mem hnd ha
  have h2 := registryGet_of_mem hnd hb
  rw [h] at h1
  rw [h1] at h2
  exact Option.some.inj h2

/-! ## Claim theorems -/

/-- Claim C10: for the framework BaseEntity, GetID after SetID(id) returns
id; IsNew holds exactly when the stored ID is 0, so it is false right after
SetID with a non-zero id, and true on a zero-valued BaseEntity. -/
theorem C10_base_entity_id (e : BaseEntity) (i : Int) (h : i ≠ 0) :
    (e.setID i).getID = i ∧ (e.isNew = true ↔ e.id = 0) ∧
    (e.setID i).isNew = false ∧ baseEntityZero.isNew = true := by
  refine ⟨rfl, ?_, ?_, rfl⟩
  · simp [BaseEntity.isNew]
  · simp [BaseEntity.isNew, BaseEntity.setID]
    exact h

theorem C10_base_entity_id_witness :
    (baseEntityZero.setID 7).getID = 7 ∧ (baseEntityZero.isNew = true ↔ baseEntityZero.id = 0) ∧
    (baseEntityZero.setID 7).isNew = false ∧ baseEntityZero.isNew = true :=
  C10_base_entity_id baseEntityZero 7 (by decide)

/-- Claim C2, evaluated at the failing input: the classification rule does
derive kind Ref for a basic-typed field annotated +soliton:ref, but
analyzeAggregateRelations skips every basic-typed field before classifying,
so no RelationMetadata at all is recorded for the field — neither when the
target is registered nor when it is dangling. -/
theorem C2_ref_record_never_recorded :
    identifyRelationType warehouseRefField = some .ref ∧
    analyzeAggregateRelations orderRefAgg = [] ∧
    analyzeRelations [orderRefAgg] = .ok [] :=
  ⟨rfl, rfl, rfl⟩

/-- Claim C3, counterexample: an aggregate-level outward ref to the
unregistered Ghost makes the whole relation analysis return an error at
once — the mutually-referencing pair Role/User later in the registry is
never analyzed and no relation list is produced, contradicting
collected-and-continue. -/
theorem C3_dangling_aborts_cex :
    analyzeRelations [orderGhostAgg, roleAgg, userAgg] =
      .error "分析聚合根 Order 的多对多关系失败: 引用的聚合根 Ghost 不存在" :=
  rfl

/-- Claim C4, counterexample: an aggregate whose only field is Name string
has no identity candidate under any of the four rules, and identifyIDField
selects no field at all, contradicting one-field-always-chosen. -/
theorem C4_no_candidate_cex : identifyIDField [nameStrField] = none := rfl

/-- Claim C5, counterexample: the repeated field Tags []string annotated
+soliton:entity is skipped as a basic-typed field, so no OneToMany record
is recorded for it. -/
theorem C5_basic_entity_skipped_cex :
    tagsEntField.annotations.isEntity = true ∧ tagsEntField.isSlice = true ∧
    analyzeAggregateRelations orderTagsAgg = [] ∧
    analyzeRelations [orderTagsAgg] = .ok [] :=
  ⟨rfl, rfl, rfl, rfl⟩

/-- Claim C6, counterexample: Busi is flagged +soliton:manyToMany, yet the
unflagged, lexicographically smaller Apple still records a ManyToMany
relation for the mutual pair, and a junction table apple_busi involving the
flagged aggregate is synthesized. -/
theorem C6_flagged_pair_junction_cex :
    busiAgg.annotations.isManyToMany = true ∧
    analyzeRelations [appleAgg, busiAgg] =
      .ok [⟨"Apple", "Busi", .manyToMany, none, true⟩] ∧
    generateManyToManyTables [appleAgg, busiAgg]
        [⟨"Apple", "Busi", .manyToMany, none, true⟩] =
      [⟨"apple_busi", "Apple", "Busi", "apple_id", "busi_id", "ID", "ID", "relation_only"⟩] :=
  ⟨rfl, rfl, rfl⟩

/-- Claim C8, evaluated at the failing input: GetAll enumerates the
aggregates map, and both [0, 1] and [1, 0] are legal Go iteration orders of
a two-aggregate registry; they yield different GetAll sequences and
different enum-artifact symbol orders, so artifact content serializing this
enumeration is not byte-identical across runs. -/
theorem C8_enumeration_order_not_reproducible :
    validIterOrder [alphaAgg, betaAgg] [0, 1] ∧ validIterOrder [alphaAgg, betaAgg] [1, 0] ∧
    getAllEnum [alphaAgg, betaAgg] [0, 1] ≠ getAllEnum [alphaAgg, betaAgg] [1, 0] ∧
    (collectEnums (getAllEnum [alphaAgg, betaAgg] [0, 1])).map (fun e => e.name) ≠
      (collectEnums (getAllEnum [alphaAgg, betaAgg] [1, 0])).map (fun e => e.name) :=
  ⟨by unfold validIterOrder; decide, by unfold validIterOrder; decide, by decide, by decide⟩

/-! ## Splice facts -/

theorem takeWhileNe_of_not_mem {α : Type} [DecidableEq α] {a : α} :
    ∀ {l : List α}, a ∉ l → l.takeWhile (fun x => x ≠ a) = l
  | [], _ => rfl
  | x :: xs, h => by
    have hx : x ≠ a := fun he => h (he ▸ List.mem_cons_self x xs)
    have hxs : a ∉ xs := fun hm => h (List.mem_cons_of_mem x hm)
    rw [List.takeWhile_cons, if_pos (by simp [hx]), takeWhileNe_of_not_mem hxs]

theorem takeWhileNe_append {α : Type} [DecidableEq α] (a : α) :
    ∀ (P rest : List α), a ∉ P → (P ++ a :: rest).takeWhile (fun x => x ≠ a) = P
  | [], rest, _ => by
    simp only [List.nil_append]
    rw [List.takeWhile_cons, if_neg (by simp)]
  | p :: ps, rest, hP => by
    have hp : p ≠ a := fun he => hP (he ▸ List.mem_cons_self p ps)
    have hps : a ∉ ps := fun hm => hP (List.mem_cons_of_mem p hm)
    rw [List.cons_append, List.takeWhile_cons, if_pos (by simp [hp]),
      takeWhileNe_append a ps rest hps]

theorem not_mem_takeWhileNe {α : Type} [DecidableEq α] (a : α) (l : List α) :
    a ∉ l.takeWhile (fun x => x ≠ a) := by
  intro hm
  have := List.mem_takeWhile_imp hm
  simp at this

/-- Claim C9 (spec-modelled; the splice generator's source file is not part
of src/): a successful splice always has the shape
hand-written-prefix ++ marker ++ fresh content, the prefix being exactly
the part of the input before the first marker (non-destructiveness), and
splicing the output again returns the output unchanged (idempotence),
provided the generated content does not itself contain the marker line. -/
theorem C9_splice_idempotent (marker : String) (content file f1 : List String)
    (hc : marker ∉ content) (h1 : spliceGenerate marker content file = .ok f1) :
    f1 = file.takeWhile (fun l => l ≠ marker) ++ marker :: content ∧
    spliceGenerate marker content f1 = .ok f1 := by
  have hform : f1 = file.takeWhile (fun l => l ≠ marker) ++ marker :: content := by
    unfold spliceGenerate at h1
    split at h1
    · exact absurd h1 (by simp)
    · split at h1
      · exact (Except.ok.inj h1).symm
      · next h2 h3 =>
        have h0 : file.count marker = 0 := by omega
        have hnm : marker ∉ file := List.count_eq_zero.mp h0
        rw [takeWhileNe_of_not_mem hnm]
        exact (Except.ok.inj h1).symm
  have hPm : marker ∉ file.takeWhile (fun l => l ≠ marker) := not_mem_takeWhileNe marker file
  have hcf1 : f1.count marker = 1 := by
    rw [hform, List.count_append]
    rw [List.count_eq_zero.mpr hPm]
    simp [List.count_cons, List.count_eq_zero.mpr hc]
  have htw : f1.takeWhile (fun l => l ≠ marker) = file.takeWhile (fun l => l ≠ marker) := by
    rw [hform]
    exact takeWhileNe_append marker _ content hPm
  refine ⟨hform, ?_⟩
  have hres : spliceGenerate marker content f1 =
      .ok (f1.takeWhile (fun l => l ≠ marker) ++ marker :: content) := by
    unfold spliceGenerate
    rw [hcf1]
    norm_num
  rw [hres, htw, ← hform]

theorem C9_splice_idempotent_witness :
    (["package model", "// ========== generated by soliton ==========", "func GetID"] : List String) =
      (["package model", "// ========== generated by soliton ==========", "old body"] : List String).takeWhile
        (fun l => l ≠ "// ========== generated by soliton ==========") ++
      "// ========== generated by soliton ==========" :: ["func GetID"] ∧
    spliceGenerate "// ========== generated by soliton =========="
        ["func GetID"]
        ["package model", "// ========== generated by soliton ==========", "func GetID"] =
      .ok ["package model", "// ========== generated by soliton ==========", "func GetID"] :=
  C9_splice_idempotent "// ========== generated by soliton ==========" ["func GetID"]
    ["package model", "// ========== generated by soliton ==========", "old body"]
    ["package model", "// ========== generated by soliton ==========", "func GetID"]
    (by decide) (by rfl)

/-! ## Error propagation in the relation analyzer -/

theorem m2mGo_error {regs : List AggregateMetadata} {agg : AggregateMetadata} :
    ∀ {rs : List String}, (∃ r ∈ rs, registryGet regs r = none) →
      ∃ m, m2mGo regs agg rs = .error m
  | [], h => absurd h (by simp)
  | r :: rs, h => by
    cases hreg : registryGet regs r with
    | none => exact ⟨"引用的聚合根 " ++ r ++ " 不存在", by simp [m2mGo, hreg]⟩
    | some t =>
      obtain ⟨r', hr', hnone⟩ := h
      rcases List.mem_cons.mp hr' with rfl | hmem
      · exact absurd hnone (by simp [hreg])
      · obtain ⟨m, hm⟩ := @m2mGo_error regs agg rs ⟨r', hmem, hnone⟩
        exact ⟨m, by simp [m2mGo, hreg, hm]⟩

theorem analyzeLoop_error {regs : List AggregateMetadata} :
    ∀ {l : List AggregateMetadata},
      (∃ a ∈ l, ∃ m, analyzeManyToManyRelations regs a = .error m) →
      ∃ msg, analyzeLoop regs l = .error msg
  | [], h => absurd h (by simp)
  | a :: l, h => by
    cases ha : analyzeManyToManyRelations regs a with
    | error e =>
      exact ⟨"分析聚合根 " ++ a.name ++ " 的多对多关系失败: " ++ e, by simp [analyzeLoop, ha]⟩
    | ok v =>
      obtain ⟨a', ha', m, hm⟩ := h
      rcases List.mem_cons.mp ha' with rfl | hmem
      · exact absurd hm (by simp [ha])
      · obtain ⟨msg, hmsg⟩ := analyzeLoop_error ⟨a', hmem, m, hm⟩
        exact ⟨msg, by simp [analyzeLoop, ha, hmsg]⟩

/-- Claim C3, amended: an aggregate-level outward ref whose target is not
registered is fatal, not collected — some unflagged aggregate having an
unresolvable ref makes the whole relation analysis return an error, so no
relation list is produced and generation cannot proceed from it. (Only the
separate ValidateRelations pass collects failures into a list, and it skips
Ref-kind records.) -/
theorem C3_dangling_ref_fatal (regs : List AggregateMetadata)
    (h : ∃ a ∈ regs, a.annotations.isManyToMany = false ∧
      ∃ r ∈ a.annotations.refs, registryGet regs r = none) :
    ∃ msg, analyzeRelations regs = .error msg := by
  obtain ⟨a, ha, hflag, r, hrmem, hrnone⟩ := h
  have hm2m : ∃ m, analyzeManyToManyRelations regs a = .error m := by
    unfold analyzeManyToManyRelations
    rw [hflag]
    exact m2mGo_error ⟨r, hrmem, hrnone⟩
  exact analyzeLoop_error ⟨a, ha, hm2m⟩

theorem C3_dangling_ref_fatal_witness :
    ∃ msg, analyzeRelations [orderGhostAgg, roleAgg, userAgg] = .error msg :=
  C3_dangling_ref_fatal [orderGhostAgg, roleAgg, userAgg] (by decide)

/-! ## The best-candidate fold of identifyIDField -/

/-- Abbreviation for the candidate fold in identifyIDField (definitionally
equal to the foldl it performs). -/
def foldMin {α : Type} (c : α × Nat) (cs : List (α × Nat)) : α × Nat :=
  cs.foldl (fun best cand => if cand.2 < best.2 then cand else best) c

/-- The strict-less fold keeps the first element attaining the minimal
second component: the kept element splits the candidate list so that
everything before it is strictly worse, and nothing anywhere is better. -/
theorem foldMin_spec {α : Type} :
    ∀ (cs : List (α × Nat)) (c : α × Nat),
      ∃ l1 l2, c :: cs = l1 ++ foldMin c cs :: l2 ∧
        (∀ x ∈ l1, (foldMin c cs).2 < x.2) ∧
        (∀ x ∈ c :: cs, (foldMin c cs).2 ≤ x.2)
  | [], c => ⟨[], [], rfl, by simp, by simp [foldMin]⟩
  | d :: ds, c => by
    have hstep : foldMin c (d :: ds) = foldMin (if d.2 < c.2 then d else c) ds := rfl
    by_cases hd : d.2 < c.2
    · obtain ⟨l1, l2, heq, hlt, hle⟩ := foldMin_spec ds d
      rw [if_pos hd] at hstep
      have hled : (foldMin c (d :: ds)).2 ≤ d.2 := by
        rw [hstep]
        exact hle d (List.mem_cons_self d ds)
      refine ⟨c :: l1, l2, ?_, ?_, ?_⟩
      · rw [hstep, List.cons_append]
        exact congrArg (c :: ·) heq
      · intro x hx
        rcases List.mem_cons.mp hx with rfl | hx1
        · exact lt_of_le_of_lt hled hd
        · rw [hstep]
          exact hlt x hx1
      · intro x hx
        rcases List.mem_cons.mp hx with rfl | hx1
        · exact le_of_lt (lt_of_le_of_lt hled hd)
        · rw [hstep]
          exact hle x hx1
    · obtain ⟨l1, l2, heq, hlt, hle⟩ := foldMin_spec ds c
      rw [if_neg hd] at hstep
      have hcd : c.2 ≤ d.2 := le_of_not_lt hd
      cases l1 with
      | nil =>
        have hc : foldMin c ds = c := (List.cons.injEq _ _ _ _ ▸ heq).1.symm
        refine ⟨[], d :: ds, ?_, by simp, ?_⟩
        · rw [List.nil_append, hstep, hc]
        · intro x hx
          rw [hstep, hc]
          rcases List.mem_cons.mp hx with rfl | hx1
          · exact le_refl _
          · rcases List.mem_cons.mp hx1 with rfl | hx2
            · exact hcd
            · have := hle x (List.mem_cons_of_mem c hx2)
              rw [hc] at this
              exact this
      | cons y l1' =>
        have hy : c = y ∧ ds = l1' ++ foldMin c ds :: l2 := by
          have := heq
          rw [List.cons_append] at this
          exact ⟨(List.cons.injEq _ _ _ _ ▸ this).1, (List.cons.injEq _ _ _ _ ▸ this).2⟩
        have hcl1 : c ∈ y :: l1' := hy.1 ▸ List.mem_cons_self y l1'
        have hstrc : (foldMin c ds).2 < c.2 := hlt c hcl1
        refine ⟨c :: d :: l1', l2, ?_, ?_, ?_⟩
        · rw [hstep, List.cons_append, List.cons_append]
          exact congrArg (c :: ·) (congrArg (d :: ·) hy.2)
        · intro x hx
          rw [hstep]
          rcases List.mem_cons.mp hx with rfl | hx1
          · exact hstrc
          · rcases List.mem_cons.mp hx1 with rfl | hx2
            · exact lt_of_lt_of_le hstrc hcd
            · exact hlt x (hy.1 ▸ List.mem_cons_of_mem y hx2)
        · intro x hx
          rw [hstep]
          rcases List.mem_cons.mp hx with rfl | hx1
          · exact le_of_lt hstrc
          · rcases List.mem_cons.mp hx1 with rfl | hx2
            · exact le_of_lt (lt_of_lt_of_le hstrc hcd)
            · exact hle x (List.mem_cons_of_mem c hx2)

/-- A split of a filterMap result induces a split of the input list. -/
theorem exists_split_of_filterMap {α β : Type} (φ : α → Option β) :
    ∀ {fields : List α} {L1 : List β} {x : β} {L2 : List β},
      fields.filterMap φ = L1 ++ x :: L2 →
      ∃ l1 a l2, fields = l1 ++ a :: l2 ∧ φ a = some x ∧ l1.filterMap φ = L1
  | [], L1, x, L2, h => by simp at h
  | f :: fs, L1, x, L2, h => by
    rw [List.filterMap_cons] at h
    cases hφ : φ f with
    | none =>
      rw [hφ] at h
      obtain ⟨l1, a, l2, hfe, hφa, hfm⟩ := exists_split_of_filterMap φ h
      exact ⟨f :: l1, a, l2, by rw [hfe, List.cons_append],
        hφa, by rw [List.filterMap_cons, hφ, hfm]⟩
    | some b =>
      rw [hφ] at h
      cases L1 with
      | nil =>
        have hb : b = x := (List.cons.injEq _ _ _ _ ▸ h).1
        have hfs : fs.filterMap φ = L2 := (List.cons.injEq _ _ _ _ ▸ h).2
        exact ⟨[], f, fs, rfl, hb ▸ hφ, rfl⟩
      | cons b' L1' =>
        rw [List.cons_append] at h
        have hb : b = b' := (List.cons.injEq _ _ _ _ ▸ h).1
        have hfs : fs.filterMap φ = L1' ++ x :: L2 := (List.cons.injEq _ _ _ _ ▸ h).2
        obtain ⟨l1, a, l2, hfe, hφa, hfm⟩ := exists_split_of_filterMap φ hfs
        exact ⟨f :: l1, a, l2, by rw [hfe, List.cons_append], hφa,
          by rw [List.filterMap_cons, hφ, hfm, hb]⟩

/-- Claim C4, amended: whenever the aggregate has at least one identity
candidate (db:"id" tag, literal name ID, name ending in ID with length
above two, or type int64), identifyIDField selects exactly one field: a
candidate of minimal priority number such that every earlier field in
declaration order is either no candidate or of strictly worse priority.
An aggregate without any candidate gets no identity field. -/
theorem C4_idfield_priority_chain (fields : List FieldMetadata)
    (h : ∃ f ∈ fields, (identifyIDFieldPriority f.name f.dbTag f.type).isSome) :
    ∃ f p, identifyIDField fields = some f ∧
      identifyIDFieldPriority f.name f.dbTag f.type = some p ∧
      (∀ g ∈ fields, ∀ q, identifyIDFieldPriority g.name g.dbTag g.type = some q → p ≤ q) ∧
      ∃ l1 l2, fields = l1 ++ f :: l2 ∧
        (∀ g ∈ l1, ∀ q, identifyIDFieldPriority g.name g.dbTag g.type = some q → p < q) := by
  obtain ⟨f0, hf0, hsome0⟩ := h
  obtain ⟨p0, hp0⟩ := Option.isSome_iff_exists.mp hsome0
  have hmem0 : (f0, p0) ∈ fields.filterMap (fun f =>
      (identifyIDFieldPriority f.name f.dbTag f.type).map (fun p => (f, p))) :=
    List.mem_filterMap.mpr ⟨f0, hf0, by rw [hp0]; rfl⟩
  obtain ⟨c, cs, hcs⟩ := List.exists_cons_of_ne_nil (List.ne_nil_of_mem hmem0)
  obtain ⟨L1, L2, heqc, hstrict, hmin⟩ := foldMin_spec cs c
  have hsplitFM : fields.filterMap (fun f =>
      (identifyIDFieldPriority f.name f.dbTag f.type).map (fun p => (f, p))) =
      L1 ++ foldMin c cs :: L2 := by rw [hcs]; exact heqc
  obtain ⟨l1, a, l2, hfe, hφa, hfm1⟩ := exists_split_of_filterMap _ hsplitFM
  have hpa : identifyIDFieldPriority a.name a.dbTag a.type = some (foldMin c cs).2 ∧
      a = (foldMin c cs).1 := by
    cases hq : identifyIDFieldPriority a.name a.dbTag a.type with
    | none => rw [hq] at hφa; exact absurd hφa (by simp)
    | some q =>
      rw [hq] at hφa
      have h2 : ((a, q) : FieldMetadata × Nat) = foldMin c cs := Option.some.inj hφa
      exact ⟨congrArg some (congrArg Prod.snd h2), congrArg Prod.fst h2⟩
  refine ⟨(foldMin c cs).1, (foldMin c cs).2, ?_, hpa.2 ▸ hpa.1, ?_, l1, l2, hpa.2 ▸ hfe, ?_⟩
  · unfold identifyIDField
    rw [hcs]
    rfl
  · intro g hg q hq
    have hgmem : (g, q) ∈ fields.filterMap (fun f =>
        (identifyIDFieldPriority f.name f.dbTag f.type).map (fun p => (f, p))) :=
      List.mem_filterMap.mpr ⟨g, hg, by rw [hq]; rfl⟩
    rw [hcs, heqc] at hgmem
    rcases List.mem_append.mp hgmem with h1 | h2
    · exact le_of_lt (hstrict (g, q) h1)
    · rcases List.mem_cons.mp h2 with he | h3
      · rw [← he]
      · exact hmin (g, q) (heqc ▸ List.mem_append_right L1 (List.mem_cons_of_mem _ h3))
  · intro g hg q hq
    have hgmem : (g, q) ∈ l1.filterMap (fun f =>
        (identifyIDFieldPriority f.name f.dbTag f.type).map (fun p => (f, p))) :=
      List.mem_filterMap.mpr ⟨g, hg, by rw [hq]; rfl⟩
    rw [hfm1] at hgmem
    exact hstrict (g, q) hgmem

theorem C4_idfield_priority_chain_witness :
    ∃ f p, identifyIDField [orderIDIntField] = some f ∧
      identifyIDFieldPriority f.name f.dbTag f.type = some p ∧
      (∀ g ∈ [orderIDIntField], ∀ q,
        identifyIDFieldPriority g.name g.dbTag g.type = some q → p ≤ q) ∧
      ∃ l1 l2, [orderIDIntField] = l1 ++ f :: l2 ∧
        (∀ g ∈ l1, ∀ q, identifyIDFieldPriority g.name g.dbTag g.type = some q → p < q) :=
  C4_idfield_priority_chain [orderIDIntField] (by decide)

/-! ## Shape of field-level relation records -/

theorem identifyRelationType_ne_m2m (f : FieldMetadata) :
    identifyRelationType f ≠ some .manyToMany := by
  unfold identifyRelationType
  split_ifs <;> simp

theorem identifyRelationType_entity (f : FieldMetadata)
    (hent : f.annotations.isEntity = true) (hbasic : isBasicType f.type = false) :
    identifyRelationType f = some (if f.isSlice then RelationType.oneToMany
      else RelationType.oneToOne) := by
  unfold identifyRelationType
  rw [hbasic, Bool.and_false, hent]
  simp [apply_ite]

theorem fieldRelOf_some {aggName : String} {g : FieldMetadata} {rel : RelationMetadata}
    (h : fieldRelOf aggName g = some rel) :
    rel.field = some g ∧ rel.sourceAggregate = aggName ∧ rel.type ≠ .manyToMany := by
  unfold fieldRelOf at h
  split at h
  · exact absurd h (by simp)
  · cases hid : identifyRelationType g with
    | none => rw [hid] at h; exact absurd h (by simp)
    | some rt =>
      rw [hid] at h
      have hrel := Option.some.inj h
      refine ⟨by rw [← hrel], by rw [← hrel], ?_⟩
      rw [← hrel]
      intro hm
      exact identifyRelationType_ne_m2m g (hid.trans (congrArg some hm))

theorem filter_fieldRelOf_nil (aggName : String) (gs : List FieldMetadata)
    (f : FieldMetadata) (hn : ∀ g ∈ gs, g.name ≠ f.name) :
    (gs.filterMap (fieldRelOf aggName)).filter (fun rel => rel.field = some f) = [] := by
  rw [List.filter_eq_nil_iff]
  intro rel hrel
  obtain ⟨g, hg, hsome⟩ := List.mem_filterMap.mp hrel
  obtain ⟨hfield, -, -⟩ := fieldRelOf_some hsome
  simp only [hfield, decide_eq_true_eq]
  intro he
  exact hn g hg (congrArg FieldMetadata.name (Option.some.inj he))

/-- Claim C5, amended: for every field annotated +soliton:entity whose
semantic type is not a basic type, exactly one RelationMetadata is recorded
for that field — kind OneToMany when the field is repeated, OneToOne when
singular, source the owning aggregate, target the extracted aggregate name.
Basic-typed entity-annotated fields are skipped (see the counterexample). -/
theorem C5_entity_field_relation (agg : AggregateMetadata) (f : FieldMetadata)
    (hf : f ∈ agg.fields) (hnodup : (agg.fields.map (fun x => x.name)).Nodup)
    (hent : f.annotations.isEntity = true) (hbasic : isBasicType f.type = false) :
    (analyzeAggregateRelations agg).filter (fun rel => rel.field = some f) =
      [{ sourceAggregate := agg.name
         targetAggregate := extractTargetAggregate f.type
         type := if f.isSlice then .oneToMany else .oneToOne
         field := some f
         isOwner := false }] := by
  unfold analyzeAggregateRelations
  revert hf hnodup
  generalize agg.fields = fs
  induction fs with
  | nil => intro hf _; cases hf
  | cons g gs ih =>
    intro hf hnd
    simp only [List.map_cons, List.nodup_cons] at hnd
    rcases List.mem_cons.mp hf with rfl | hfgs
    · have hval : fieldRelOf agg.name f = some
          { sourceAggregate := agg.name
            targetAggregate := extractTargetAggregate f.type
            type := if f.isSlice then .oneToMany else .oneToOne
            field := some f
            isOwner := false } := by
        unfold fieldRelOf
        rw [if_neg (by simp [hbasic]), identifyRelationType_entity f hent hbasic]
      rw [List.filterMap_cons_some hval, List.filter_cons, if_pos (by simp)]
      rw [filter_fieldRelOf_nil agg.name gs f]
      intro g hg he
      exact hnd.1 (by rw [← he]; exact List.mem_map.mpr ⟨g, hg, rfl⟩)
    · have hgname : g.name ≠ f.name := fun he =>
        hnd.1 (by rw [he]; exact List.mem_map.mpr ⟨f, hfgs, rfl⟩)
      cases hb : fieldRelOf agg.name g with
      | none =>
        rw [List.filterMap_cons_none hb]
        exact ih hfgs hnd.2
      | some rel =>
        rw [List.filterMap_cons_some hb, List.filter_cons, if_neg ?_]
        · exact ih hfgs hnd.2
        · obtain ⟨hfield, -, -⟩ := fieldRelOf_some hb
          simp only [hfield, decide_eq_true_eq]
          intro he
          exact hgname (congrArg FieldMetadata.name (Option.some.inj he))

theorem C5_entity_field_relation_witness :
    (analyzeAggregateRelations orderItemsAgg).filter
        (fun rel => rel.field = some itemsEntField) =
      [{ sourceAggregate := orderItemsAgg.name
         targetAggregate := extractTargetAggregate itemsEntField.type
         type := if itemsEntField.isSlice then .oneToMany else .oneToOne
         field := some itemsEntField
         isOwner := false }] :=
  C5_entity_field_relation orderItemsAgg itemsEntField (by decide) (by decide)
    (by decide) (by decide)

/-! ## Shape of aggregate-level many-to-many records -/

theorem analyzeAggregateRelations_no_m2m {agg : AggregateMetadata}
    {rel : RelationMetadata} (h : rel ∈ analyzeAggregateRelations agg) :
    rel.type ≠ .manyToMany := by
  obtain ⟨g, -, hsome⟩ := List.mem_filterMap.mp h
  exact (fieldRelOf_some hsome).2.2

theorem m2mGo_ok_mem {regs : List AggregateMetadata} {agg : AggregateMetadata} :
    ∀ {rs : List String} {l : List RelationMetadata}, m2mGo regs agg rs = .ok l →
      ∀ rel ∈ l, rel.sourceAggregate = agg.name ∧ rel.type = .manyToMany ∧
        strLt agg.name rel.targetAggregate = true
  | [], l, h => by
    have : l = [] := (Except.ok.inj h).symm
    subst this
    intro rel hrel
    cases hrel
  | r :: rs, l, h => by
    unfold m2mGo at h
    cases hreg : registryGet regs r with
    | none => rw [hreg] at h; exact absurd h (by simp)
    | some t =>
      rw [hreg] at h
      cases hrec : m2mGo regs agg rs with
      | error e => rw [hrec] at h; exact absurd h (by simp)
      | ok rest =>
        rw [hrec] at h
        have h2 : (if (t.annotations.refs.contains agg.name && strLt agg.name r) = true then
            (Except.ok ((⟨agg.name, r, RelationType.manyToMany, none, true⟩ :
              RelationMetadata) :: rest) : Except String (List RelationMetadata))
          else Except.ok rest) = Except.ok l := h
        by_cases hcond : (t.annotations.refs.contains agg.name && strLt agg.name r) = true
        · rw [if_pos hcond] at h2
          have hl := Except.ok.inj h2
          subst hl
          intro rel hrel
          rcases List.mem_cons.mp hrel with rfl | hmem
          · refine ⟨rfl, rfl, ?_⟩
            have hc := hcond
            simp only [Bool.and_eq_true] at hc
            exact hc.2
          · exact m2mGo_ok_mem hrec rel hmem
        · rw [if_neg hcond] at h2
          have hl := Except.ok.inj h2
          subst hl
          exact m2mGo_ok_mem hrec

theorem analyzeM2M_ok_mem {regs : List AggregateMetadata} {agg : AggregateMetadata}
    {l : List RelationMetadata} (h : analyzeManyToManyRelations regs agg = .ok l) :
    ∀ rel ∈ l, rel.sourceAggregate = agg.name ∧
      agg.annotations.isManyToMany = false ∧ rel.type = .manyToMany ∧
      strLt agg.name rel.targetAggregate = true := by
  unfold analyzeManyToManyRelations at h
  split at h
  · next hflag =>
    have hl := Except.ok.inj h
    subst hl
    intro rel hrel
    cases hrel
  · next hflag =>
    intro rel hrel
    obtain ⟨h1, h2, h3⟩ := m2mGo_ok_mem h rel hrel
    exact ⟨h1, Bool.not_eq_true _ ▸ hflag, h2, h3⟩

theorem analyzeLoop_ok_mem {regs : List AggregateMetadata} :
    ∀ {l : List AggregateMetadata} {rels : List RelationMetadata},
      analyzeLoop regs l = .ok rels →
      ∀ rel ∈ rels, rel.type = .manyToMany →
        ∃ a ∈ l, rel.sourceAggregate = a.name ∧ a.annotations.isManyToMany = false ∧
          strLt rel.sourceAggregate rel.targetAggregate = true
  | [], rels, h => by
    have : rels = [] := (Except.ok.inj h).symm
    subst this
    intro rel hrel
    cases hrel
  | a :: l, rels, h => by
    unfold analyzeLoop at h
    cases hm : analyzeManyToManyRelations regs a with
    | error e => rw [hm] at h; exact absurd h (by simp)
    | ok m2m =>
      rw [hm] at h
      cases hrest : analyzeLoop regs l with
      | error e => rw [hrest] at h; exact absurd h (by simp)
      | ok more =>
        rw [hrest] at h
        have h2 : Except.ok (analyzeAggregateRelations a ++ m2m ++ more) =
            (Except.ok rels : Except String (List RelationMetadata)) := h
        have hr := Except.ok.inj h2
        subst hr
        intro rel hrel htype
        rcases List.mem_append.mp hrel with h1 | h2
        · rcases List.mem_append.mp h1 with hf | hm2
          · exact absurd htype (analyzeAggregateRelations_no_m2m hf)
          · obtain ⟨hsrc, hflag, -, hlt⟩ := analyzeM2M_ok_mem hm rel hm2
            exact ⟨a, List.mem_cons_self a l, hsrc, hflag, hsrc ▸ hlt⟩
        · obtain ⟨a', ha', hrest'⟩ := analyzeLoop_ok_mem hrest rel h2 htype
          exact ⟨a', List.mem_cons_of_mem a ha', hrest'⟩

/-- Claim C6, amended: the +soliton:manyToMany business flag suppresses
junction synthesis only on the flagged aggregate's own analysis — every
ManyToMany relation record is created by an unflagged aggregate as its
lexicographically smaller source, and every synthesized junction table's
left aggregate is such an unflagged source. In particular a flagged
aggregate never itself records a junction (and when it is the smaller
member of a mutual pair, none is produced for that pair), but a mutual
pair whose smaller member is unflagged still yields a junction even if
the larger member is flagged (see the counterexample). -/
theorem C6_flagged_owns_no_junction (regs : List AggregateMetadata)
    (rels : List RelationMetadata) (h : analyzeRelations regs = .ok rels) :
    (∀ rel ∈ rels, rel.type = .manyToMany →
      ∃ a ∈ regs, rel.sourceAggregate = a.name ∧ a.annotations.isManyToMany = false ∧
        strLt rel.sourceAggregate rel.targetAggregate = true) ∧
    (∀ t ∈ generateManyToManyTables regs rels,
      ∃ a ∈ regs, t.leftAggregate = a.name ∧ a.annotations.isManyToMany = false) := by
  unfold analyzeRelations at h
  have h1 := analyzeLoop_ok_mem h
  refine ⟨h1, ?_⟩
  intro t ht
  obtain ⟨rel, hrel, hsome⟩ := List.mem_filterMap.mp ht
  have htype : rel.type = .manyToMany := by
    by_contra hne
    rw [if_neg hne] at hsome
    cases hsome
  rw [if_pos htype] at hsome
  have hteq := Option.some.inj hsome
  obtain ⟨a, ha, hsrc, hflag, hlt⟩ := h1 rel hrel htype
  refine ⟨a, ha, ?_, hflag⟩
  rw [← hteq]
  show (if strLt rel.sourceAggregate rel.targetAggregate then rel.sourceAggregate
    else rel.targetAggregate) = a.name
  rw [if_pos hlt, hsrc]

theorem C6_flagged_owns_no_junction_witness :
    (∀ rel ∈ [(⟨"Apple", "Busi", .manyToMany, none, true⟩ : RelationMetadata)],
      rel.type = .manyToMany →
      ∃ a ∈ [appleAgg, busiAgg], rel.sourceAggregate = a.name ∧
        a.annotations.isManyToMany = false ∧
        strLt rel.sourceAggregate rel.targetAggregate = true) ∧
    (∀ t ∈ generateManyToManyTables [appleAgg, busiAgg]
        [(⟨"Apple", "Busi", .manyToMany, none, true⟩ : RelationMetadata)],
      ∃ a ∈ [appleAgg, busiAgg], t.leftAggregate = a.name ∧
        a.annotations.isManyToMany = false) :=
  C6_flagged_owns_no_junction [appleAgg, busiAgg]
    [⟨"Apple", "Busi", .manyToMany, none, true⟩] rfl

/-! ## CollectEnums facts -/

theorem enumOfField_some {aggName : String} {f : FieldMetadata} {e : EnumMetadata}
    (h : enumOfField aggName f = some e) :
    f.annotations.enumValues ≠ [] ∧
    e = ⟨aggName ++ f.name, f.name, aggName, f.annotations.enumValues, f.type⟩ := by
  unfold enumOfField at h
  split at h
  · next hlen =>
    refine ⟨?_, (Option.some.inj h).symm⟩
    intro hnil
    rw [hnil] at hlen
    simp at hlen
  · cases h

theorem filter_flatMap_list {α β : Type} (l : List α) (g : α → List β) (p : β → Bool) :
    (l.flatMap g).filter p = l.flatMap (fun x => (g x).filter p) := by
  induction l with
  | nil => rfl
  | cons x xs ih => simp [List.flatMap_cons, List.filter_append, ih]

theorem flatMap_eq_of_single {α β : Type} :
    ∀ {l : List α} {a : α}, l.Nodup → a ∈ l →
      ∀ {h : α → List β}, (∀ b ∈ l, b ≠ a → h b = []) → l.flatMap h = h a
  | [], a, _, ha, _, _ => absurd ha (by simp)
  | x :: xs, a, hnd, ha, h, hz => by
    simp only [List.nodup_cons] at hnd
    rcases List.mem_cons.mp ha with rfl | hmem
    · rw [List.flatMap_cons]
      have htail : xs.flatMap h = [] := by
        rw [List.flatMap_eq_nil_iff]
        intro b hb
        exact hz b (List.mem_cons_of_mem a hb) (fun he => hnd.1 (he ▸ hb))
      rw [htail, List.append_nil]
    · have hx : x ≠ a := fun he => hnd.1 (he ▸ hmem)
      rw [List.flatMap_cons, hz x (List.mem_cons_self x xs) hx, List.nil_append]
      exact flatMap_eq_of_single hnd.2 hmem
        (fun b hb hne => hz b (List.mem_cons_of_mem x hb) hne)

theorem filter_enums_other {b : AggregateMetadata} {aname fname : String}
    (hb : b.name ≠ aname) :
    (collectEnumsOfAgg b).filter
      (fun e => e.aggregateName = aname ∧ e.fieldName = fname) = [] := by
  rw [List.filter_eq_nil_iff]
  intro e he
  obtain ⟨g, hg, hsome⟩ := List.mem_filterMap.mp he
  obtain ⟨-, hshape⟩ := enumOfField_some hsome
  simp only [hshape, decide_eq_true_eq]
  intro hc
  exact hb hc.1

theorem filter_enums_fields_nil (aname : String) (gs : List FieldMetadata)
    (fname : String) (hn : ∀ g ∈ gs, g.name ≠ fname) :
    (gs.filterMap (enumOfField aname)).filter
      (fun e => e.aggregateName = aname ∧ e.fieldName = fname) = [] := by
  rw [List.filter_eq_nil_iff]
  intro e he
  obtain ⟨g, hg, hsome⟩ := List.mem_filterMap.mp he
  obtain ⟨-, hshape⟩ := enumOfField_some hsome
  simp only [hshape, decide_eq_true_eq]
  intro hc
  exact hn g hg hc.2

theorem filter_enums_own (a : AggregateMetadata) (f : FieldMetadata)
    (hf : f ∈ a.fields) (hnd : (a.fields.map (fun x => x.name)).Nodup) :
    (collectEnumsOfAgg a).filter
      (fun e => e.aggregateName = a.name ∧ e.fieldName = f.name) =
      if f.annotations.enumValues = [] then []
      else [⟨a.name ++ f.name, f.name, a.name, f.annotations.enumValues, f.type⟩] := by
  unfold collectEnumsOfAgg
  revert hf hnd
  generalize a.fields = fs
  induction fs with
  | nil => intro hf _; cases hf
  | cons g gs ih =>
    intro hf hnd
    simp only [List.map_cons, List.nodup_cons] at hnd
    rcases List.mem_cons.mp hf with rfl | hfgs
    · have hn : ∀ g' ∈ gs, g'.name ≠ f.name := fun g' hg' he =>
        hnd.1 (by rw [← he]; exact List.mem_map.mpr ⟨g', hg', rfl⟩)
      by_cases hev : f.annotations.enumValues = []
      · rw [if_pos hev]
        rw [List.filterMap_cons_none (by unfold enumOfField; rw [if_neg (by simp [hev])])]
        exact filter_enums_fields_nil a.name gs f.name hn
      · rw [if_neg hev]
        have hsome : enumOfField a.name f = some
            ⟨a.name ++ f.name, f.name, a.name, f.annotations.enumValues, f.type⟩ := by
          unfold enumOfField
          rw [if_pos (by simpa [List.length_pos] using hev)]
        rw [List.filterMap_cons_some hsome, List.filter_cons, if_pos (by simp)]
        rw [filter_enums_fields_nil a.name gs f.name hn]
    · have hgname : g.name ≠ f.name := fun he =>
        hnd.1 (by rw [he]; exact List.mem_map.mpr ⟨f, hfgs, rfl⟩)
      cases hb : enumOfField a.name g with
      | none =>
        rw [List.filterMap_cons_none hb]
        exact ih hfgs hnd.2
      | some e =>
        rw [List.filterMap_cons_some hb, List.filter_cons, if_neg ?_]
        · exact ih hfgs hnd.2
        · obtain ⟨-, hshape⟩ := enumOfField_some hb
          simp only [hshape, decide_eq_true_eq]
          intro hc
          exact hgname hc.2

/-- Claim C7: after all aggregates are registered, one CollectEnums pass
produces exactly one EnumMetadata per enum-carrying field — named
aggregate name ++ field name, owned by that aggregate and field, with that
field's values in order — and every produced descriptor stems from such a
field; fields without enum values produce none. -/
theorem C7_collect_enums_exact (regs : List AggregateMetadata)
    (hA : (regs.map (fun x => x.name)).Nodup)
    (hF : ∀ a ∈ regs, (a.fields.map (fun x => x.name)).Nodup) :
    (∀ e ∈ collectEnums regs, ∃ a ∈ regs, ∃ f ∈ a.fields,
      f.annotations.enumValues ≠ [] ∧
      e = ⟨a.name ++ f.name, f.name, a.name, f.annotations.enumValues, f.type⟩) ∧
    (∀ a ∈ regs, ∀ f ∈ a.fields,
      (collectEnums regs).filter
        (fun e => e.aggregateName = a.name ∧ e.fieldName = f.name) =
        if f.annotations.enumValues = [] then []
        else [⟨a.name ++ f.name, f.name, a.name, f.annotations.enumValues, f.type⟩]) := by
  constructor
  · intro e he
    obtain ⟨a, ha, hmem⟩ := List.mem_flatMap.mp he
    obtain ⟨f, hf, hsome⟩ := List.mem_filterMap.mp hmem
    obtain ⟨hne, hshape⟩ := enumOfField_some hsome
    exact ⟨a, ha, f, hf, hne, hshape⟩
  · intro a ha f hf
    have hstep : collectEnums regs = regs.flatMap collectEnumsOfAgg := rfl
    rw [hstep, filter_flatMap_list]
    rw [flatMap_eq_of_single (hA.of_map) ha ?_]
    · exact filter_enums_own a f hf (hF a ha)
    · intro b hb hne
      exact filter_enums_other (fun he => hne (mem_name_inj hA hb ha he))

theorem C7_collect_enums_exact_witness :
    (∀ e ∈ collectEnums [alphaAgg, betaAgg], ∃ a ∈ [alphaAgg, betaAgg], ∃ f ∈ a.fields,
      f.annotations.enumValues ≠ [] ∧
      e = ⟨a.name ++ f.name, f.name, a.name, f.annotations.enumValues, f.type⟩) ∧
    (∀ a ∈ [alphaAgg, betaAgg], ∀ f ∈ a.fields,
      (collectEnums [alphaAgg, betaAgg]).filter
        (fun e => e.aggregateName = a.name ∧ e.fieldName = f.name) =
        if f.annotations.enumValues = [] then []
        else [⟨a.name ++ f.name, f.name, a.name, f.annotations.enumValues, f.type⟩]) :=
  C7_collect_enums_exact [alphaAgg, betaAgg] (by decide) (by decide)

/-! ## The error-free analysis path -/

theorem m2mGo_ok_of_resolved {regs : List AggregateMetadata} {agg : AggregateMetadata} :
    ∀ {rs : List String}, (∀ r ∈ rs, (registryGet regs r).isSome) →
      m2mGo regs agg rs = .ok (rs.filterMap (m2mRelOfRef regs agg))
  | [], _ => rfl
  | r :: rs, h => by
    cases hreg : registryGet regs r with
    | none =>
      have hs := h r (List.mem_cons_self r rs)
      rw [hreg] at hs
      simp at hs
    | some t =>
      have hrec := @m2mGo_ok_of_resolved regs agg rs
        (fun r' hr' => h r' (List.mem_cons_of_mem r hr'))
      have hstep : m2mGo regs agg (r :: rs) =
          if (t.annotations.refs.contains agg.name && strLt agg.name r) = true then
            .ok ((⟨agg.name, r, .manyToMany, none, true⟩ : RelationMetadata) ::
              rs.filterMap (m2mRelOfRef regs agg))
          else .ok (rs.filterMap (m2mRelOfRef regs agg)) := by
        unfold m2mGo
        rw [hreg, hrec]
      have hhead : m2mRelOfRef regs agg r =
          if (t.annotations.refs.contains agg.name && strLt agg.name r) = true then
            some ⟨agg.name, r, .manyToMany, none, true⟩
          else none := by
        unfold m2mRelOfRef
        rw [hreg]
      rw [hstep, List.filterMap_cons, hhead]
      by_cases hcond : (t.annotations.refs.contains agg.name && strLt agg.name r) = true
      · rw [if_pos hcond, if_pos hcond]
      · rw [if_neg hcond, if_neg hcond]

theorem analyzeM2M_ok_of_resolved {regs : List AggregateMetadata} {agg : AggregateMetadata}
    (h : agg.annotations.isManyToMany = false →
      ∀ r ∈ agg.annotations.refs, (registryGet regs r).isSome) :
    analyzeManyToManyRelations regs agg = .ok (m2mPure regs agg) := by
  unfold analyzeManyToManyRelations m2mPure
  cases hb : agg.annotations.isManyToMany with
  | true => simp
  | false =>
    simp only [Bool.false_eq_true, if_false]
    exact m2mGo_ok_of_resolved (h hb)

theorem analyzeLoop_ok_of_resolved {regs : List AggregateMetadata} :
    ∀ {l : List AggregateMetadata},
      (∀ a ∈ l, a.annotations.isManyToMany = false →
        ∀ r ∈ a.annotations.refs, (registryGet regs r).isSome) →
      analyzeLoop regs l =
        .ok (l.flatMap (fun a => analyzeAggregateRelations a ++ m2mPure regs a))
  | [], _ => rfl
  | a :: l, h => by
    have h1 := analyzeM2M_ok_of_resolved (h a (List.mem_cons_self a l))
    have h2 := analyzeLoop_ok_of_resolved (fun b hb => h b (List.mem_cons_of_mem a hb))
    unfold analyzeLoop
    rw [h1, h2, List.flatMap_cons]

/-- AnalyzeRelations succeeds when every declared aggregate-level ref of
every unflagged aggregate resolves, and produces exactly the pure flatMap
of field relations and many-to-many relations. -/
theorem analyzeRelations_ok_of_resolved (regs : List AggregateMetadata)
    (h : ∀ a ∈ regs, a.annotations.isManyToMany = false →
      ∀ r ∈ a.annotations.refs, (registryGet regs r).isSome) :
    analyzeRelations regs = .ok (analyzePure regs) :=
  analyzeLoop_ok_of_resolved h

/-! ## Junction-table computations -/

theorem filterMap_flatMap_list {α β γ : Type} (l : List α) (g : α → List β)
    (p : β → Option γ) :
    (l.flatMap g).filterMap p = l.flatMap (fun x => (g x).filterMap p) := by
  induction l with
  | nil => rfl
  | cons x xs ih => simp [List.flatMap_cons, List.filterMap_append, ih]

theorem genTables_fieldRels_nil (regs : List AggregateMetadata)
    (agg : AggregateMetadata) :
    generateManyToManyTables regs (analyzeAggregateRelations agg) = [] := by
  unfold generateManyToManyTables
  rw [List.filterMap_eq_nil_iff]
  intro rel hrel
  rw [if_neg (analyzeAggregateRelations_no_m2m hrel)]

theorem m2mRelOfRef_some_shape {regs : List AggregateMetadata} {agg : AggregateMetadata}
    {r : String} {rel : RelationMetadata} (h : m2mRelOfRef regs agg r = some rel) :
    rel = ⟨agg.name, r, .manyToMany, none, true⟩ ∧ strLt agg.name r = true := by
  cases hreg : registryGet regs r with
  | none =>
    have hz : m2mRelOfRef regs agg r = none := by
      unfold m2mRelOfRef
      rw [hreg]
    rw [hz] at h
    cases h
  | some t =>
    have hstep : m2mRelOfRef regs agg r =
        if (t.annotations.refs.contains agg.name && strLt agg.name r) = true then
          some ⟨agg.name, r, .manyToMany, none, true⟩
        else none := by
      unfold m2mRelOfRef
      rw [hreg]
    rw [hstep] at h
    by_cases hcond : (t.annotations.refs.contains agg.name && strLt agg.name r) = true
    · rw [if_pos hcond] at h
      have hc := hcond
      simp only [Bool.and_eq_true] at hc
      exact ⟨(Option.some.inj h).symm, hc.2⟩
    · rw [if_neg hcond] at h
      cases h

theorem createTable_left_right {regs : List AggregateMetadata} {rel : RelationMetadata}
    (hlt : strLt rel.sourceAggregate rel.targetAggregate = true) :
    (createManyToManyTable regs rel).leftAggregate = rel.sourceAggregate ∧
    (createManyToManyTable regs rel).rightAggregate = rel.targetAggregate := by
  constructor <;> simp [createManyToManyTable, hlt]

theorem genTables_append (regs : List AggregateMetadata)
    (l1 l2 : List RelationMetadata) :
    generateManyToManyTables regs (l1 ++ l2) =
      generateManyToManyTables regs l1 ++ generateManyToManyTables regs l2 :=
  List.filterMap_append l1 l2 _

theorem m2mPure_mem {regs : List AggregateMetadata} {b : AggregateMetadata}
    {rel : RelationMetadata} (hrel : rel ∈ m2mPure regs b) :
    rel.sourceAggregate = b.name ∧
    strLt rel.sourceAggregate rel.targetAggregate = true := by
  unfold m2mPure at hrel
  split at hrel
  · cases hrel
  · obtain ⟨r, hr, hsome⟩ := List.mem_filterMap.mp hrel
    obtain ⟨heq, hlt2⟩ := m2mRelOfRef_some_shape hsome
    subst heq
    exact ⟨rfl, hlt2⟩

theorem genBody_some {regs : List AggregateMetadata} {rel : RelationMetadata}
    {t : ManyToManyTableMetadata}
    (h : (if rel.type = .manyToMany then some (createManyToManyTable regs rel)
      else none) = some t) :
    t = createManyToManyTable regs rel := by
  by_cases htype : rel.type = .manyToMany
  · rw [if_pos htype] at h
    exact (Option.some.inj h).symm
  · rw [if_neg htype] at h
    cases h

theorem filter_pair_other {regs : List AggregateMetadata} {A B b : AggregateMetadata}
    (hnames : (regs.map (fun x => x.name)).Nodup)
    (hA : A ∈ regs) (hb : b ∈ regs) (hneA : b ≠ A)
    (hlt : strLt A.name B.name = true) :
    (generateManyToManyTables regs (m2mPure regs b)).filter
      (isPairTable A.name B.name) = [] := by
  rw [List.filter_eq_nil_iff]
  intro t ht
  obtain ⟨rel, hrel, hsome⟩ := List.mem_filterMap.mp ht
  obtain ⟨hsrc, hlt2⟩ := m2mPure_mem hrel
  have hteq := genBody_some hsome
  obtain ⟨hL, hR⟩ := createTable_left_right hlt2
  simp only [isPairTable, decide_eq_true_eq]
  rintro (⟨h1, h2⟩ | ⟨h1, h2⟩)
  · exact hneA (mem_name_inj hnames hb hA (by rw [← hsrc, ← hL, ← hteq, h1]))
  · have hBA : strLt B.name A.name = true := by
      have hsB : rel.sourceAggregate = B.name := by rw [← hL, ← hteq, h1]
      have htA : rel.targetAggregate = A.name := by rw [← hR, ← hteq, h2]
      rw [← hsB, ← htA]
      exact hlt2
    rw [strLt_asymm hlt] at hBA
    exact Bool.false_ne_true hBA

theorem m2mRelOfRef_hit {regs : List AggregateMetadata} {A B : AggregateMetadata}
    (hgetB : registryGet regs B.name = some B) (hBrefA : A.name ∈ B.annotations.refs)
    (hlt : strLt A.name B.name = true) :
    m2mRelOfRef regs A B.name = some ⟨A.name, B.name, .manyToMany, none, true⟩ := by
  have hstep : m2mRelOfRef regs A B.name =
      if (B.annotations.refs.contains A.name && strLt A.name B.name) = true then
        some ⟨A.name, B.name, .manyToMany, none, true⟩
      else none := by
    unfold m2mRelOfRef
    rw [hgetB]
  rw [hstep,
    if_pos (by rw [Bool.and_eq_true]; exact ⟨List.elem_eq_true_of_mem hBrefA, hlt⟩)]

theorem filter_pair_refs_none {regs : List AggregateMetadata} {A B : AggregateMetadata}
    (hlt : strLt A.name B.name = true) :
    ∀ (rs : List String), B.name ∉ rs →
      (generateManyToManyTables regs (rs.filterMap (m2mRelOfRef regs A))).filter
        (isPairTable A.name B.name) = [] := by
  intro rs hnoB
  rw [List.filter_eq_nil_iff]
  intro t ht
  obtain ⟨rel, hrel, hsome⟩ := List.mem_filterMap.mp ht
  obtain ⟨r, hr, hsome2⟩ := List.mem_filterMap.mp hrel
  obtain ⟨heq, hlt2⟩ := m2mRelOfRef_some_shape hsome2
  subst heq
  have hteq := genBody_some hsome
  have hlt2' : strLt (⟨A.name, r, RelationType.manyToMany, none, true⟩ :
      RelationMetadata).sourceAggregate
      (⟨A.name, r, RelationType.manyToMany, none, true⟩ :
        RelationMetadata).targetAggregate = true := hlt2
  obtain ⟨hL, hR⟩ := createTable_left_right hlt2'
  simp only [isPairTable, decide_eq_true_eq]
  rintro (⟨h1, h2⟩ | ⟨h1, h2⟩)
  · have hrB : r = B.name := by
      rw [hteq] at h2
      rw [hR] at h2
      exact h2
    exact hnoB (hrB ▸ hr)
  · have hab : A.name = B.name := by
      rw [hteq] at h1
      rw [hL] at h1
      exact h1
    exact strLt_ne hlt hab

theorem createTable_eval {regs : List AggregateMetadata} {A B : AggregateMetadata}
    (hgetA : registryGet regs A.name = some A) (hgetB : registryGet regs B.name = some B)
    (hlt : strLt A.name B.name = true) :
    createManyToManyTable regs ⟨A.name, B.name, .manyToMany, none, true⟩ =
      ⟨toSnakeCase A.name ++ "_" ++ toSnakeCase B.name, A.name, B.name,
       toSnakeCase A.name ++ "_id", toSnakeCase B.name ++ "_id",
       (match A.idField with | some f => f.name | none => "ID"),
       (match B.idField with | some f => f.name | none => "ID"), "relation_only"⟩ := by
  simp [createManyToManyTable, hgetA, hgetB, hlt]

theorem genTables_cons (regs : List AggregateMetadata) (rel : RelationMetadata)
    (rest : List RelationMetadata) :
    generateManyToManyTables regs (rel :: rest) =
      if rel.type = .manyToMany then
        createManyToManyTable regs rel :: generateManyToManyTables regs rest
      else generateManyToManyTables regs rest := by
  unfold generateManyToManyTables
  rw [List.filterMap_cons]
  by_cases h : rel.type = .manyToMany
  · rw [if_pos h, if_pos h]
  · rw [if_neg h, if_neg h]

theorem filter_pair_refs {regs : List AggregateMetadata} {A B : AggregateMetadata}
    (hgetA : registryGet regs A.name = some A) (hgetB : registryGet regs B.name = some B)
    (hlt : strLt A.name B.name = true) (hBrefA : A.name ∈ B.annotations.refs) :
    ∀ (rs : List String), B.name ∈ rs → rs.Nodup →
      (generateManyToManyTables regs (rs.filterMap (m2mRelOfRef regs A))).filter
        (isPairTable A.name B.name) =
      [createManyToManyTable regs ⟨A.name, B.name, .manyToMany, none, true⟩]
  | [], hmem, _ => absurd hmem (by simp)
  | r :: rs, hmem, hnd => by
    simp only [List.nodup_cons] at hnd
    by_cases hrB : r = B.name
    · subst hrB
      rw [List.filterMap_cons_some (m2mRelOfRef_hit hgetB hBrefA hlt)]
      rw [genTables_cons, if_pos rfl, List.filter_cons, if_pos ?_]
      · rw [filter_pair_refs_none hlt rs hnd.1]
      · obtain ⟨hL, hR⟩ := createTable_left_right
          (show strLt (⟨A.name, B.name, RelationType.manyToMany, none, true⟩ :
            RelationMetadata).sourceAggregate
            (⟨A.name, B.name, RelationType.manyToMany, none, true⟩ :
              RelationMetadata).targetAggregate = true from hlt)
        simp only [isPairTable, decide_eq_true_eq]
        exact Or.inl ⟨hL, hR⟩
    · have hmem2 : B.name ∈ rs := by
        rcases List.mem_cons.mp hmem with he | hm
        · exact absurd he.symm hrB
        · exact hm
      cases hhead : m2mRelOfRef regs A r with
      | none =>
        rw [List.filterMap_cons_none hhead]
        exact filter_pair_refs hgetA hgetB hlt hBrefA rs hmem2 hnd.2
      | some rel =>
        obtain ⟨heq, hlt2⟩ := m2mRelOfRef_some_shape hhead
        subst heq
        rw [List.filterMap_cons_some hhead]
        rw [genTables_cons, if_pos rfl, List.filter_cons, if_neg ?_]
        · exact filter_pair_refs hgetA hgetB hlt hBrefA rs hmem2 hnd.2
        · obtain ⟨hL, hR⟩ := createTable_left_right
            (show strLt (⟨A.name, r, RelationType.manyToMany, none, true⟩ :
              RelationMetadata).sourceAggregate
              (⟨A.name, r, RelationType.manyToMany, none, true⟩ :
                RelationMetadata).targetAggregate = true from hlt2)
          simp only [isPairTable, decide_eq_true_eq]
          rintro (⟨h1, h2⟩ | ⟨h1, h2⟩)
          · rw [hR] at h2
            exact hrB h2
          · rw [hL] at h1
            exact strLt_ne hlt h1

/-- Claim C1: for two registered aggregates that mutually declare
aggregate-level outward refs and are not flagged as business aggregates
(given well-formed input: unique aggregate names, set-like ref lists, and
all declared refs resolvable so the analysis succeeds), exactly one
junction table is produced for the unordered pair: its left side is the
lexicographically smaller aggregate name, its table name is the snake-case
left name ++ "_" ++ snake-case right name, and its foreign columns are the
snake-case names suffixed with _id. -/
theorem C1_mutual_refs_unique_junction
    (regs : List AggregateMetadata) (A B : AggregateMetadata)
    (hA : A ∈ regs) (hB : B ∈ regs)
    (hnames : (regs.map (fun x => x.name)).Nodup)
    (hlt : strLt A.name B.name = true)
    (hArefB : B.name ∈ A.annotations.refs) (hBrefA : A.name ∈ B.annotations.refs)
    (hAflag : A.annotations.isManyToMany = false)
    (hBflag : B.annotations.isManyToMany = false)
    (hAnd : A.annotations.refs.Nodup)
    (hres : ∀ a ∈ regs, a.annotations.isManyToMany = false →
      ∀ r ∈ a.annotations.refs, (registryGet regs r).isSome) :
    analyzeRelations regs = .ok (analyzePure regs) ∧
    (generateManyToManyTables regs (analyzePure regs)).filter
      (isPairTable A.name B.name) =
    [⟨toSnakeCase A.name ++ "_" ++ toSnakeCase B.name, A.name, B.name,
      toSnakeCase A.name ++ "_id", toSnakeCase B.name ++ "_id",
      (match A.idField with | some f => f.name | none => "ID"),
      (match B.idField with | some f => f.name | none => "ID"), "relation_only"⟩] := by
  have hgetA := registryGet_of_mem hnames hA
  have hgetB := registryGet_of_mem hnames hB
  refine ⟨analyzeRelations_ok_of_resolved regs hres, ?_⟩
  have hpush : generateManyToManyTables regs (analyzePure regs) =
      regs.flatMap (fun a =>
        generateManyToManyTables regs (analyzeAggregateRelations a ++ m2mPure regs a)) := by
    unfold generateManyToManyTables analyzePure
    exact filterMap_flatMap_list regs _ _
  rw [hpush, filter_flatMap_list]
  have hother : ∀ b ∈ regs, b ≠ A →
      (generateManyToManyTables regs
        (analyzeAggregateRelations b ++ m2mPure regs b)).filter
        (isPairTable A.name B.name) = [] := by
    intro b hb hneb
    rw [genTables_append regs _ _, List.filter_append,
      genTables_fieldRels_nil regs b, List.filter_nil, List.nil_append]
    exact filter_pair_other hnames hA hb hneb hlt
  rw [flatMap_eq_of_single hnames.of_map hA hother]
  rw [genTables_append regs _ _, List.filter_append,
    genTables_fieldRels_nil regs A, List.filter_nil, List.nil_append]
  have hm2m : m2mPure regs A = A.annotations.refs.filterMap (m2mRelOfRef regs A) := by
    unfold m2mPure
    rw [if_neg (by simp [hAflag])]
  rw [hm2m, filter_pair_refs hgetA hgetB hlt hBrefA A.annotations.refs hArefB hAnd]
  rw [createTable_eval hgetA hgetB hlt]

theorem C1_mutual_refs_unique_junction_witness :
    analyzeRelations [roleAgg, userAgg] = .ok (analyzePure [roleAgg, userAgg]) ∧
    (generateManyToManyTables [roleAgg, userAgg]
        (analyzePure [roleAgg, userAgg])).filter (isPairTable "Role" "User") =
    [⟨"role_user", "Role", "User", "role_id", "user_id", "ID", "ID", "relation_only"⟩] := by
  have h := C1_mutual_refs_unique_junction [roleAgg, userAgg] roleAgg userAgg
    (by decide) (by decide) (by decide) (by decide) (by decide) (by decide)
    (by decide) (by decide) (by decide) (by decide)
  exact h
